import Mathlib

/-!
Verification development for the opslab-mindguard legacy extraction and
re-ingestion pipeline.  The definitions below are shallow embeddings of the
Python sources (`import_wall_data.py`, `import_wall_posts.py`,
`extract_all_teampulse.py`, `extract_data.py`, `extract_teampulse_all.py`,
`extract_real_data.py`); stateful database code is modelled by explicit
state passing, network responses by explicit response environments, and the
per-record randomness (`os.urandom`) by explicit nonce arguments.
-/

set_option maxRecDepth 4000

namespace Mindguard
/-! ### Base64 (model of Python `base64.b64encode`, standard alphabet) -/

/-- The standard base64 alphabet, as used by `base64.b64encode`. -/
def b64Alphabet : List Char :=
  "ABCDEFGHIJKLMNOPQRSTUVWXYZabcdefghijklmnopqrstuvwxyz0123456789+/".toList

/-- Character for a sextet value. -/
def b64Char (n : Nat) : Char := b64Alphabet.getD n 'A'

/-- Sextet value of an alphabet character (`none` for non-alphabet chars,
including the padding char). -/
def b64Index (c : Char) : Option Nat := b64Alphabet.findIdx? (fun x => x == c)

/-- Base64-encode a byte list, three bytes to four characters, with `=`
padding exactly as `base64.b64encode` produces it. -/
def b64EncodeChunks : List Nat → List Char
  | a :: b :: c :: rest =>
      let g := a * 65536 + b * 256 + c
      b64Char (g / 262144) :: b64Char (g / 4096 % 64) ::
        b64Char (g / 64 % 64) :: b64Char (g % 64) :: b64EncodeChunks rest
  | [a, b] =>
      let g := a * 65536 + b * 256
      [b64Char (g / 262144), b64Char (g / 4096 % 64), b64Char (g / 64 % 64), '=']
  | [a] =>
      let g := a * 65536
      [b64Char (g / 262144), b64Char (g / 4096 % 64), '=', '=']
  | [] => []

/-- Base64-decode four characters to three bytes, honouring `=` padding in
the final quartet only; `none` on malformed input. -/
def b64DecodeChunks : List Char → Option (List Nat)
  | [] => some []
  | c1 :: c2 :: c3 :: c4 :: rest =>
      match b64Index c1, b64Index c2 with
      | some s1, some s2 =>
          if c3 = '=' then
            if c4 = '=' then
              if rest.isEmpty then some [s1 * 4 + s2 / 16] else none
            else none
          else
            match b64Index c3 with
            | some s3 =>
                if c4 = '=' then
                  if rest.isEmpty then
                    some [s1 * 4 + s2 / 16, s2 % 16 * 16 + s3 / 4]
                  else none
                else
                  match b64Index c4 with
                  | some s4 =>
                      (b64DecodeChunks rest).map (fun tail =>
                        let g := s1 * 262144 + s2 * 4096 + s3 * 64 + s4
                        g / 65536 :: g / 256 % 256 :: g % 256 :: tail)
                  | none => none
            | none => none
      | _, _ => none
  | _ => none

/-- `base64.b64encode(...).decode('utf-8')` as a string producer. -/
def b64encode (bs : List Nat) : String := String.mk (b64EncodeChunks bs)

/-! ### Hex decoding (model of Python `bytes.fromhex`) -/

/-- Value of one hex digit. -/
def hexVal (c : Char) : Option Nat :=
  let n := c.toNat
  if 48 ≤ n ∧ n ≤ 57 then some (n - 48)
  else if 97 ≤ n ∧ n ≤ 102 then some (n - 87)
  else if 65 ≤ n ∧ n ≤ 70 then some (n - 55)
  else none

/-- `bytes.fromhex`: pairs of hex digits to bytes; `none` (a raised
`ValueError` in Python) on odd length or non-hex characters. -/
def bytesFromHex : List Char → Option (List Nat)
  | [] => some []
  | c1 :: c2 :: rest => do
      let h ← hexVal c1
      let l ← hexVal c2
      let t ← bytesFromHex rest
      some ((h * 16 + l) :: t)
  | [_] => none

/-! ### AES-GCM structural model -/

/-- Structural model of the AES-GCM primitive reached through the
`cryptography` library in `encrypt_content`: GCM is counter-mode encryption
(one keystream byte per plaintext byte, determined by key and nonce) plus a
16-byte authentication tag computed over the ciphertext.  The AES core is
external library code, so the keystream and the tag are parameters. -/
structure AEAD where
  ksByte : List Nat → List Nat → Nat → Nat
  tagOf : List Nat → List Nat → List Nat → List Nat

/-- Shape conditions every real AEAD instance satisfies: keystream values
and tag entries are bytes, and the tag is 16 bytes long. -/
def AEAD.WF (A : AEAD) : Prop :=
  (∀ key nonce i, A.ksByte key nonce i < 256) ∧
  (∀ key nonce ct, (A.tagOf key nonce ct).length = 16 ∧
    ∀ b ∈ A.tagOf key nonce ct, b < 256)

/-- Counter-mode byte stream: XOR each byte with the keystream at its
position. -/
def xorStream (ks : Nat → Nat) : Nat → List Nat → List Nat
  | _, [] => []
  | i, p :: rest => (p ^^^ ks i) :: xorStream ks (i + 1) rest

/-! ### UTF-8 (model of Python `str.encode('utf-8')`) -/

/-- UTF-8 byte sequence of one character. -/
def charUtf8Bytes (c : Char) : List Nat :=
  let n := c.toNat
  if n < 128 then [n]
  else if n < 2048 then [192 + n / 64, 128 + n % 64]
  else if n < 65536 then [224 + n / 4096, 128 + n / 64 % 64, 128 + n % 64]
  else [240 + n / 262144, 128 + n / 4096 % 64, 128 + n / 64 % 64, 128 + n % 64]

/-- UTF-8 byte sequence of a string (`plaintext.encode('utf-8')`). -/
def utf8Bytes (s : String) : List Nat := s.toList.flatMap charUtf8Bytes

/-! ### encrypt / decrypt -/

/-- `encrypt_content` from `import_wall_data.py`: hex-decode the key
(`bytes.fromhex`, `none` models the `ValueError` on malformed hex),
GCM-encrypt the UTF-8 bytes of the plaintext under a 12-byte nonce, and
return `base64(nonce + ciphertext + tag)`.  In the source the nonce is
drawn by `os.urandom(12)` inside the function; the model makes that
internally drawn randomness an explicit argument. -/
def encrypt_content (A : AEAD) (nonce : List Nat) (plaintext : String)
    (key_hex : String) : Option String :=
  (bytesFromHex key_hex.toList).map (fun key =>
    let ct := xorStream (A.ksByte key nonce) 0 (utf8Bytes plaintext)
    b64encode (nonce ++ ct ++ A.tagOf key nonce ct))

/-- Modelled from the spec: the destination backend's decrypt routine (the
Rust backend, not under `src/`).  Per the spec the stored blob is the base64
encoding of `nonce ‖ ciphertext ‖ tag` with a 12-byte nonce and a 16-byte
tag; decryption parses the blob back per this layout, checks the tag and
GCM-decrypts, yielding the plaintext's UTF-8 bytes. -/
def decrypt_content (A : AEAD) (blob : String) (key_hex : String) :
    Option (List Nat) :=
  match bytesFromHex key_hex.toList with
  | none => none
  | some key =>
      match b64DecodeChunks blob.toList with
      | none => none
      | some bytes =>
          if bytes.length < 28 then none
          else
            let nonce := bytes.take 12
            let rest := bytes.drop 12
            let ct := rest.take (rest.length - 16)
            let tag := rest.drop (rest.length - 16)
            if tag = A.tagOf key nonce ct then
              some (xorStream (A.ksByte key nonce) 0 ct)
            else none

/-- A concrete AEAD instance used to witness the encryption theorems. -/
def testAEAD : AEAD where
  ksByte := fun _ _ _ => 7
  tagOf := fun _ _ _ => List.replicate 16 1

/-- A 32-byte key in hex form. -/
def testKeyHex : String :=
  "0000000000000000000000000000000000000000000000000000000000000000"

/-! ### Category mapping (Transformer, `import_feedbacks`) -/

/-- The `aspect_to_category` dict of `import_wall_data.py`. -/
def aspect_to_category : List (String × String) :=
  [("team", "CELEBRATION"), ("management", "COMPLAINT"),
   ("workload", "SUPPORT_NEEDED")]

/-- The `sentiment_to_category` dict of `import_wall_data.py`. -/
def sentiment_to_category : List (String × String) :=
  [("positive", "CELEBRATION"), ("negative", "COMPLAINT"),
   ("mixed", "SUGGESTION")]

/-- Python `dict.get(key, default)` over a literal table; a `None` key is
present in no dict, so it takes the default. -/
def pyGet (tbl : List (String × String)) (k : Option String) (dflt : String) :
    String :=
  match k with
  | none => dflt
  | some key =>
      match tbl.lookup key with
      | some v => v
      | none => dflt

/-- The category computation of `import_feedbacks`:
`aspect_to_category.get(fb.get('work_aspect'),
 sentiment_to_category.get(fb.get('sentiment', 'mixed'), 'SUGGESTION'))`.
A record without a `sentiment` key defaults the lookup key to `"mixed"`; a
record with a JSON-null sentiment takes the `'SUGGESTION'` default directly,
the same final value, so both are modelled by `none`. -/
def categoryOf (work_aspect sentiment : Option String) : String :=
  pyGet aspect_to_category work_aspect
    (pyGet sentiment_to_category (some (sentiment.getD "mixed")) "SUGGESTION")

/-! ### Destination store and the re-ingestion writer (`import_feedbacks`) -/

/-- One extracted legacy feedback record (`WALL_ALL_FEEDBACKS.json`). -/
structure Feedback where
  id : String
  summary : String
  tags : List String
  sentiment : Option String
  work_aspect : Option String
  created_at : String
deriving DecidableEq

/-- A row of the destination `encryption_keys` registry. -/
structure KeyRow where
  key_hex : String
  created_at : Nat
deriving DecidableEq

/-- A row of the destination `users` table. -/
structure UserRow where
  id : String
  email : String
deriving DecidableEq

/-- A row of the destination `wall_posts` table.  `enc_content` is the
encrypted blob; `none` models the exception `bytes.fromhex` raises inside
`encrypt_content` on a malformed key. -/
structure WallRow where
  id : String
  user_id : String
  enc_content : Option String
  category : String
  ai_categorized : Bool
  created_at : String
deriving DecidableEq

/-- The destination database state. -/
structure DB where
  keys : List KeyRow
  users : List UserRow
  wall_posts : List WallRow
deriving DecidableEq

/-- A psycopg2 connection (autocommit off): statements run against
`current`; `committed` is what the table durably holds, updated only by
`commit`.  Closing without committing discards `current`. -/
structure Conn where
  committed : DB
  current : DB
deriving DecidableEq

/-- `SELECT key_hex FROM encryption_keys ORDER BY created_at DESC LIMIT 1`:
a row of maximal `created_at` (row order breaks ties). -/
def latestKey : List KeyRow → Option KeyRow
  | [] => none
  | k :: ks =>
      match latestKey ks with
      | none => some k
      | some m => some (if m.created_at ≤ k.created_at then k else m)

/-- `SELECT id FROM users WHERE email = %s` with `fetchone()`. -/
def lookupUser (users : List UserRow) (email : String) : Option String :=
  (users.find? (fun u => u.email == email)).map (fun u => u.id)

def ADMIN_EMAIL : String := "work.olegkaminskyi@gmail.com"

/-- `', '.join(tags)`. -/
def joinComma : List String → String
  | [] => ""
  | [t] => t
  | t :: rest => t ++ ", " ++ joinComma rest

/-- The content reconstruction of `import_feedbacks`:
the summary, a blank line, and the rendered tag line. -/
def reconstructContent (fb : Feedback) : String :=
  fb.summary ++ "\n\nТеги: " ++ joinComma fb.tags

/-- `INSERT INTO wall_posts ... ON CONFLICT (id) DO NOTHING`. -/
def insertOnConflict (t : List WallRow) (r : WallRow) : List WallRow :=
  if t.any (fun x => x.id == r.id) then t else t ++ [r]

/-- Run one INSERT statement on the connection (uncommitted). -/
def execInsert (c : Conn) (r : WallRow) : Conn :=
  { c with current := { c.current with
      wall_posts := insertOnConflict c.current.wall_posts r } }

/-- `conn.commit()`. -/
def commit (c : Conn) : Conn := { c with committed := c.current }

/-- The row the INSERT statement binds for record `fb`; index `i` selects
the record's internally drawn nonce. -/
def mkRow (A : AEAD) (nonceF : Nat → List Nat) (key_hex : String) (i : Nat)
    (uid : String) (fb : Feedback) : WallRow :=
  { id := fb.id
    user_id := uid
    enc_content :=
      encrypt_content A (nonceF i) (reconstructContent fb) key_hex
    category := categoryOf fb.work_aspect fb.sentiment
    ai_categorized := true
    created_at := fb.created_at }

/-- The per-record loop of `import_feedbacks`: resolve the admin user (a
missing admin skips the record without counting), execute the conditional
insert, and run `imported += 1` for every record whose statement executes —
conflicts included, since `ON CONFLICT DO NOTHING` does not raise. -/
def importLoop (A : AEAD) (nonceF : Nat → List Nat) (key_hex : String) :
    Nat → List Feedback → Conn → Nat → Conn × Nat
  | _, [], c, acc => (c, acc)
  | i, fb :: rest, c, acc =>
      match lookupUser c.current.users ADMIN_EMAIL with
      | none => importLoop A nonceF key_hex (i + 1) rest c acc
      | some uid =>
          importLoop A nonceF key_hex (i + 1) rest
            (execInsert c (mkRow A nonceF key_hex i uid fb)) (acc + 1)

/-- `import_feedbacks` of `import_wall_data.py`: look up the
most-recently-created encryption key (returning early, before touching any
record, when the registry is empty), run the insert loop, and commit once
after the whole loop.  The function never writes a key and writes no files;
the snapshot it reads is an unmodified input. -/
def import_feedbacks (A : AEAD) (nonceF : Nat → List Nat)
    (feedbacks : List Feedback) (c : Conn) : Conn × Nat :=
  match latestKey c.current.keys with
  | none => (c, 0)
  | some k =>
      let r := importLoop A nonceF k.key_hex 0 feedbacks c 0
      (commit r.1, r.2)

/-- Concrete record, nonce source and database states for counterexamples
and witnesses. -/
def fbA : Feedback :=
  { id := "fb-1", summary := "s", tags := ["a"], sentiment := some "positive",
    work_aspect := none, created_at := "2025-01-01" }

def nonce0 : Nat → List Nat := fun _ => List.replicate 12 0

def dbA : DB :=
  { keys := [{ key_hex := testKeyHex, created_at := 1 }],
    users := [{ id := "u1", email := ADMIN_EMAIL }],
    wall_posts := [] }

def connA : Conn := { committed := dbA, current := dbA }

def runA1 : Conn × Nat := import_feedbacks testAEAD nonce0 [fbA] connA

def runA2 : Conn × Nat := import_feedbacks testAEAD nonce0 [fbA] runA1.1

def rowPre : WallRow :=
  { id := "fb-1", user_id := "u1", enc_content := none,
    category := "SUGGESTION", ai_categorized := true,
    created_at := "2024-12-01" }

def dbB : DB :=
  { keys := [{ key_hex := testKeyHex, created_at := 1 }],
    users := [{ id := "u1", email := ADMIN_EMAIL }],
    wall_posts := [rowPre] }

def connB : Conn := { committed := dbB, current := dbB }

def connEmpty : Conn :=
  { committed := { keys := [], users := [], wall_posts := [] },
    current := { keys := [], users := [], wall_posts := [] } }

/-- The POST body `import_wall_posts.py` sends per record to the
destination's creation endpoint: `json` with the bare summary as `content`. -/
def wall_post_api_payload (fb : Feedback) : List (String × String) :=
  [("content", fb.summary)]

/-! ### HTTP responses, the endpoint prober and the credential negotiator -/

/-- Minimal JSON value tree for payloads. -/
inductive Json where
  | str (s : String)
  | num (n : Int)
  | arr (xs : List Json)
  | obj (fields : List (String × Json))

/-- An HTTP response as the scripts observe it: status code, content-type
header, raw body text, and the result of `resp.json()` — `none` when the
body (for example an HTML SPA shell) does not parse as JSON. -/
structure HttpResponse where
  status : Nat
  contentType : String
  text : String
  asJson : Option Json

/-- The per-month candidate loop of `extract_all_data`
(`extract_all_teampulse.py`): one GET per candidate path in order; accept
the first response with status 200 whose body parses as JSON; a 200 whose
body does not parse (the `except: pass`) falls through to the next
candidate exactly like a non-200. -/
def firstJsonHit (fetch : String → HttpResponse) : List String → Option Json
  | [] => none
  | ep :: rest =>
      let resp := fetch ep
      if resp.status = 200 then
        match resp.asJson with
        | some d => some d
        | none => firstJsonHit fetch rest
      else firstJsonHit fetch rest

/-- Whether `pat` starts `s`. -/
def prefixEq : List Char → List Char → Bool
  | [], _ => true
  | _ :: _, [] => false
  | a :: as, b :: bs => a == b && prefixEq as bs

/-- Whether `pat` occurs inside `s` (Python `pat in s`). -/
def containsSub : List Char → List Char → Bool
  | pat, [] => prefixEq pat []
  | pat, c :: rest => prefixEq pat (c :: rest) || containsSub pat rest

/-- `'application/json' in resp.headers.get('content-type', '')`. -/
def jsonCT (r : HttpResponse) : Bool :=
  containsSub "application/json".toList r.contentType.toList

/-- `extract_wall_data` of `extract_data.py` as a function of the login
response and the two wall candidates' responses; the returned value is what
the function saves to `wall_data.json`.  A non-200 login or wall response
aborts with `None`; a JSON content type takes `resp.json()` (modelled by
`asJson`); when both candidates miss, the fallback stores an object holding
an empty post list and the raw HTML body of the first response. -/
def extract_wall_data (login wall api : HttpResponse) : Option Json :=
  if login.status ≠ 200 then none
  else if wall.status ≠ 200 then none
  else if jsonCT wall = true then wall.asJson
  else if api.status = 200 ∧ jsonCT api = true then api.asJson
  else some (Json.obj [("posts", Json.arr []), ("html", Json.str wall.text)])

def EMAIL : String := "work.olegkaminskyi@gmail.com"

def PASSWORD : String := "QwertY24$"

def BASE : String := "https://teampulse-mindguard-production.up.railway.app"

/-- One login candidate: endpoint URL and request payload (the payload
field names decide whether the secret travels as `password` or `code`). -/
structure LoginAttempt where
  url : String
  payload : List (String × String)
deriving DecidableEq

/-- The fixed ordered candidate list of `try_all_login_methods`
(`extract_teampulse_all.py`). -/
def login_attempts : List LoginAttempt :=
  [ { url := BASE ++ "/api/auth/login",
      payload := [("email", EMAIL), ("password", PASSWORD)] },
    { url := BASE ++ "/api/auth/login",
      payload := [("email", EMAIL), ("code", PASSWORD)] },
    { url := BASE ++ "/auth/login",
      payload := [("email", EMAIL), ("password", PASSWORD)] },
    { url := BASE ++ "/auth/login",
      payload := [("email", EMAIL), ("code", PASSWORD)] },
    { url := BASE ++ "/login",
      payload := [("email", EMAIL), ("password", PASSWORD)] },
    { url := BASE ++ "/login",
      payload := [("email", EMAIL), ("code", PASSWORD)] },
    { url := BASE ++ "/api/auth/login",
      payload := [("email", EMAIL), ("code", "0000")] },
    { url := BASE ++ "/auth/login",
      payload := [("email", EMAIL), ("code", "0000")] },
    { url := BASE ++ "/api/session/login",
      payload := [("email", EMAIL), ("password", PASSWORD)] },
    { url := BASE ++ "/session/login",
      payload := [("email", EMAIL), ("code", "0000")] } ]

/-- Outcome of the negotiation: the successful candidate and parsed body if
any, the requests issued (in order), and the files written. -/
structure NegotiationResult where
  success : Option (LoginAttempt × Json)
  requests : List LoginAttempt
  writes : List (String × Json)

/-- The JSON document written to `teampulse_login_success.json` on success:
the endpoint, the full request payload, and the response. -/
def loginSuccessDoc (a : LoginAttempt) (d : Json) : Json :=
  Json.obj [("endpoint", Json.str a.url),
            ("payload", Json.obj (a.payload.map (fun p => (p.1, Json.str p.2)))),
            ("response", d)]

/-- The candidate loop of `try_all_login_methods`: one POST per candidate
in order; a response with status exactly 200 whose body parses as JSON ends
the search, writes the success file and returns; any other response — a
non-200 status, or a 200 whose body is not JSON — moves on to the next
candidate, as does a transport exception; exhaustion returns `none` with
nothing written and no candidate retried. -/
def tryLogins (respond : LoginAttempt → HttpResponse) :
    List LoginAttempt → NegotiationResult
  | [] => { success := none, requests := [], writes := [] }
  | a :: rest =>
      let resp := respond a
      if resp.status = 200 then
        match resp.asJson with
        | some d =>
            { success := some (a, d), requests := [a],
              writes := [("teampulse_login_success.json", loginSuccessDoc a d)] }
        | none =>
            let r := tryLogins respond rest
            { success := r.success, requests := a :: r.requests,
              writes := r.writes }
      else
        let r := tryLogins respond rest
        { success := r.success, requests := a :: r.requests,
          writes := r.writes }

/-- `try_all_login_methods` of `extract_teampulse_all.py`. -/
def try_all_login_methods (respond : LoginAttempt → HttpResponse) :
    NegotiationResult :=
  tryLogins respond login_attempts

def respLoginOk : HttpResponse :=
  { status := 200, contentType := "application/json", text := "ok",
    asJson := some (Json.obj []) }

def respWallHtml : HttpResponse :=
  { status := 200, contentType := "text/html",
    text := "<html>app shell</html>", asJson := none }

def fetchOk : String → HttpResponse := fun _ => respLoginOk

def respond201 : LoginAttempt → HttpResponse :=
  fun _ => { status := 201, contentType := "application/json", text := "ok",
             asJson := some (Json.obj []) }

def respondOk : LoginAttempt → HttpResponse :=
  fun _ => { status := 200, contentType := "application/json", text := "ok",
             asJson := some (Json.obj []) }

def attemptOne : LoginAttempt :=
  { url := BASE ++ "/api/auth/login",
    payload := [("email", EMAIL), ("password", PASSWORD)] }

def attemptTwo : LoginAttempt :=
  { url := BASE ++ "/api/auth/login",
    payload := [("email", EMAIL), ("code", PASSWORD)] }

/-- A response environment where the first candidate misses (404) and every
other candidate succeeds with a JSON body. -/
def respondSecond : LoginAttempt → HttpResponse :=
  fun a =>
    if a = attemptOne then
      { status := 404, contentType := "text/html", text := "nope",
        asJson := none }
    else
      { status := 200, contentType := "application/json", text := "ok",
        asJson := some (Json.obj []) }

/-- A fetch environment where the first wall candidate serves an HTML 200
and every other candidate serves JSON. -/
def fetchMix : String → HttpResponse :=
  fun ep => if ep = "/feedback/wall" then respWallHtml else respLoginOk

/-- A fetch environment where every candidate serves an HTML 200. -/
def fetchHtml : String → HttpResponse := fun _ => respWallHtml

/-! ### Theorems -/

theorem toList_mk (l : List Char) : (String.mk l).toList = l := rfl

theorem b64Index_b64Char : ∀ n, n < 64 → b64Index (b64Char n) = some n := by decide

theorem b64Char_ne_pad : ∀ n, n < 64 → b64Char n ≠ '=' := by decide

/-- Decoding inverts encoding on byte lists. -/
theorem b64_roundtrip : ∀ bs : List Nat, (∀ b ∈ bs, b < 256) →
    b64DecodeChunks (b64EncodeChunks bs) = some bs
  | [], _ => by simp [b64EncodeChunks, b64DecodeChunks]
  | [a], h => by
      have ha : a < 256 := h a (by simp)
      have h1 : a * 65536 / 262144 < 64 := by omega
      have h2 : a * 65536 / 4096 % 64 < 64 := by omega
      simp only [b64EncodeChunks, b64DecodeChunks,
        b64Index_b64Char _ h1, b64Index_b64Char _ h2]
      simp only [if_pos rfl, List.isEmpty_nil, if_true, Option.some.injEq,
        List.cons.injEq, and_true]
      omega
  | [a, b], h => by
      have ha : a < 256 := h a (by simp)
      have hb : b < 256 := h b (by simp)
      have h1 : (a * 65536 + b * 256) / 262144 < 64 := by omega
      have h2 : (a * 65536 + b * 256) / 4096 % 64 < 64 := by omega
      have h3 : (a * 65536 + b * 256) / 64 % 64 < 64 := by omega
      simp only [b64EncodeChunks, b64DecodeChunks,
        b64Index_b64Char _ h1, b64Index_b64Char _ h2,
        if_neg (b64Char_ne_pad _ h3), b64Index_b64Char _ h3]
      simp only [if_pos rfl, List.isEmpty_nil, if_true, Option.some.injEq,
        List.cons.injEq, and_true]
      omega
  | a :: b :: c :: rest, h => by
      have ha : a < 256 := h a (by simp)
      have hb : b < 256 := h b (by simp)
      have hc : c < 256 := h c (by simp)
      have hrest : ∀ x ∈ rest, x < 256 := fun x hx => h x (by simp [hx])
      have ih := b64_roundtrip rest hrest
      have h1 : (a * 65536 + b * 256 + c) / 262144 < 64 := by omega
      have h2 : (a * 65536 + b * 256 + c) / 4096 % 64 < 64 := by omega
      have h3 : (a * 65536 + b * 256 + c) / 64 % 64 < 64 := by omega
      have h4 : (a * 65536 + b * 256 + c) % 64 < 64 := by omega
      simp only [b64EncodeChunks, b64DecodeChunks,
        b64Index_b64Char _ h1, b64Index_b64Char _ h2,
        if_neg (b64Char_ne_pad _ h3), b64Index_b64Char _ h3,
        if_neg (b64Char_ne_pad _ h4), b64Index_b64Char _ h4, ih]
      simp only [Option.map_some', Option.some.injEq, List.cons.injEq, and_true]
      omega

/-- Encoded strings determine the encoded bytes. -/
theorem b64encode_injective (xs ys : List Nat)
    (hx : ∀ b ∈ xs, b < 256) (hy : ∀ b ∈ ys, b < 256)
    (h : b64encode xs = b64encode ys) : xs = ys := by
  have hchars : b64EncodeChunks xs = b64EncodeChunks ys := by
    have := congrArg String.toList h
    simpa [b64encode, toList_mk] using this
  have hx2 := b64_roundtrip xs hx
  have hy2 := b64_roundtrip ys hy
  rw [hchars, hy2] at hx2
  exact (Option.some.injEq _ _ ▸ hx2).symm

theorem hexVal_lt (c : Char) (n : Nat) (h : hexVal c = some n) : n < 16 := by
  simp only [hexVal] at h
  split_ifs at h <;> simp_all <;> omega

theorem bytesFromHex_lt : ∀ (cs : List Char) (bs : List Nat),
    bytesFromHex cs = some bs → ∀ b ∈ bs, b < 256
  | [], bs, h => by
      simp only [bytesFromHex, Option.some.injEq] at h
      subst h
      simp
  | [_], bs, h => by simp [bytesFromHex] at h
  | c1 :: c2 :: rest, bs, h => by
      simp only [bytesFromHex, Option.bind_eq_bind, Option.bind_eq_some,
        Option.some.injEq] at h
      obtain ⟨hv, hhv, lv, hlv, t, ht, hbs⟩ := h
      subst hbs
      intro b hb
      rcases List.mem_cons.mp hb with h1 | h1
      · have hu := hexVal_lt _ _ hhv
        have hl := hexVal_lt _ _ hlv
        omega
      · exact bytesFromHex_lt rest t ht b h1

theorem xorStream_length (ks : Nat → Nat) :
    ∀ (i : Nat) (l : List Nat), (xorStream ks i l).length = l.length
  | _, [] => rfl
  | i, _ :: rest => by simp [xorStream, xorStream_length ks (i + 1) rest]

theorem xorStream_xorStream (ks : Nat → Nat) :
    ∀ (i : Nat) (l : List Nat), xorStream ks i (xorStream ks i l) = l
  | _, [] => rfl
  | i, p :: rest => by
      simp [xorStream, xorStream_xorStream ks (i + 1) rest, Nat.xor_assoc]

theorem xorStream_lt (ks : Nat → Nat) (hks : ∀ i, ks i < 256) :
    ∀ (i : Nat) (l : List Nat), (∀ b ∈ l, b < 256) →
      ∀ b ∈ xorStream ks i l, b < 256
  | _, [], _ => by simp [xorStream]
  | i, p :: rest, h => by
      intro b hb
      rcases List.mem_cons.mp hb with h1 | h1
      · have hp : p < 256 := h p (by simp)
        have : p ^^^ ks i < 256 :=
          Nat.xor_lt_two_pow (n := 8) hp (hks i)
        omega
      · exact xorStream_lt ks hks (i + 1) rest
          (fun x hx => h x (by simp [hx])) b h1

theorem charUtf8Bytes_lt (c : Char) : ∀ b ∈ charUtf8Bytes c, b < 256 := by
  have hval : c.toNat < 1114112 := by
    show c.val.toNat < 1114112
    rcases c.valid with h | h
    · omega
    · exact h.2
  intro b hb
  simp only [charUtf8Bytes] at hb
  split_ifs at hb <;> simp_all <;> omega

theorem utf8Bytes_lt (s : String) : ∀ b ∈ utf8Bytes s, b < 256 := by
  intro b hb
  simp only [utf8Bytes, List.mem_flatMap] at hb
  obtain ⟨c, _, hc⟩ := hb
  exact charUtf8Bytes_lt c b hc

theorem take_append_len {α : Type} (l r : List α) (n : Nat)
    (h : l.length = n) : (l ++ r).take n = l := by
  subst h
  induction l with
  | nil => simp
  | cons x xs ih => simp [ih]

theorem drop_append_len {α : Type} (l r : List α) (n : Nat)
    (h : l.length = n) : (l ++ r).drop n = r := by
  subst h
  induction l with
  | nil => simp
  | cons x xs ih => simp [ih]

theorem encrypt_content_eq (A : AEAD) (nonce : List Nat) (plaintext : String)
    (key_hex : String) (key : List Nat)
    (hkey : bytesFromHex key_hex.toList = some key) :
    encrypt_content A nonce plaintext key_hex =
      some (b64encode (nonce ++ xorStream (A.ksByte key nonce) 0 (utf8Bytes plaintext)
        ++ A.tagOf key nonce (xorStream (A.ksByte key nonce) 0 (utf8Bytes plaintext)))) := by
  unfold encrypt_content
  rw [hkey]
  rfl

/-- Core round-trip fact shared by the encryption theorems: decrypting the
blob `encrypt_content` builds recovers the plaintext bytes. -/
theorem decrypt_encrypt_core (A : AEAD) (hA : A.WF)
    (key_hex : String) (key : List Nat)
    (hkey : bytesFromHex key_hex.toList = some key)
    (nonce : List Nat) (hn : nonce.length = 12) (hnb : ∀ b ∈ nonce, b < 256)
    (content : String) :
    (∃ ct tag : List Nat, ct.length = (utf8Bytes content).length ∧
        tag.length = 16 ∧
        encrypt_content A nonce content key_hex =
          some (b64encode (nonce ++ ct ++ tag))) ∧
    (encrypt_content A nonce content key_hex).bind
        (fun blob => decrypt_content A blob key_hex) =
      some (utf8Bytes content) := by
  obtain ⟨hks, htag⟩ := hA
  have hptb : ∀ b ∈ utf8Bytes content, b < 256 := utf8Bytes_lt content
  set pt := utf8Bytes content with hpt
  set ct := xorStream (A.ksByte key nonce) 0 pt with hct
  set tg := A.tagOf key nonce ct with htg
  have hctl : ct.length = pt.length := xorStream_length _ 0 pt
  have hctb : ∀ b ∈ ct, b < 256 :=
    xorStream_lt _ (fun i => hks key nonce i) 0 pt hptb
  have htgl : tg.length = 16 := (htag key nonce ct).1
  have htgb : ∀ b ∈ tg, b < 256 := (htag key nonce ct).2
  have hallb : ∀ b ∈ nonce ++ ct ++ tg, b < 256 := by
    intro b hb
    rcases List.mem_append.mp hb with hb1 | hb1
    · rcases List.mem_append.mp hb1 with hb2 | hb2
      · exact hnb b hb2
      · exact hctb b hb2
    · exact htgb b hb1
  have henc := encrypt_content_eq A nonce content key_hex key hkey
  refine ⟨⟨ct, tg, by rw [hctl], htgl, henc⟩, ?_⟩
  rw [henc]
  simp only [Option.some_bind]
  have hdec : b64DecodeChunks (b64encode (nonce ++ ct ++ tg)).toList =
      some (nonce ++ ct ++ tg) := by
    rw [b64encode, toList_mk]
    exact b64_roundtrip _ hallb
  unfold decrypt_content
  simp only [hkey, hdec]
  have hlen : (nonce ++ ct ++ tg).length = 12 + ct.length + 16 := by
    simp [List.length_append, hn, htgl]
    omega
  rw [if_neg (by omega)]
  have htake : (nonce ++ ct ++ tg).take 12 = nonce := by
    rw [List.append_assoc]
    exact take_append_len nonce (ct ++ tg) 12 hn
  have hdrop : (nonce ++ ct ++ tg).drop 12 = ct ++ tg := by
    rw [List.append_assoc]
    exact drop_append_len nonce (ct ++ tg) 12 hn
  rw [htake, hdrop]
  have hrl : (ct ++ tg).length - 16 = ct.length := by
    simp [List.length_append, htgl]
  rw [hrl, take_append_len ct tg ct.length rfl, drop_append_len ct tg ct.length rfl]
  rw [if_pos rfl]
  rw [hct, xorStream_xorStream]

/-- C3: for every content string and every valid key, `encrypt_content`
produces the base64 encoding of `nonce ‖ ciphertext ‖ tag` (12-byte nonce,
ciphertext of the plaintext's byte length, 16-byte tag), and decrypting that
blob with the same key per this layout recovers exactly the original
content's UTF-8 byte sequence. -/
theorem claim_C3_encrypt_decrypt_roundtrip (A : AEAD) (hA : A.WF)
    (key_hex : String) (key : List Nat)
    (hkey : bytesFromHex key_hex.toList = some key)
    (nonce : List Nat) (hn : nonce.length = 12) (hnb : ∀ b ∈ nonce, b < 256)
    (content : String) :
    (∃ ct tag : List Nat, ct.length = (utf8Bytes content).length ∧
        tag.length = 16 ∧
        encrypt_content A nonce content key_hex =
          some (b64encode (nonce ++ ct ++ tag))) ∧
    (encrypt_content A nonce content key_hex).bind
        (fun blob => decrypt_content A blob key_hex) =
      some (utf8Bytes content) :=
  decrypt_encrypt_core A hA key_hex key hkey nonce hn hnb content

/-- C4: the nonce is drawn inside `encrypt_content` (it is internal
randomness, never caller-supplied), and two encryptions of the same content
under the same key produce different blobs whenever the internally drawn
nonces differ. -/
theorem claim_C4_nonce_freshness (A : AEAD) (hA : A.WF)
    (key_hex : String) (key : List Nat)
    (hkey : bytesFromHex key_hex.toList = some key)
    (n1 n2 : List Nat) (h1 : n1.length = 12) (h2 : n2.length = 12)
    (hb1 : ∀ b ∈ n1, b < 256) (hb2 : ∀ b ∈ n2, b < 256)
    (hne : n1 ≠ n2) (content : String) :
    encrypt_content A n1 content key_hex ≠
      encrypt_content A n2 content key_hex := by
  obtain ⟨hks, htag⟩ := hA
  have hptb : ∀ b ∈ utf8Bytes content, b < 256 := utf8Bytes_lt content
  intro h
  rw [encrypt_content_eq A n1 content key_hex key hkey,
    encrypt_content_eq A n2 content key_hex key hkey] at h
  have h3 := Option.some.injEq _ _ ▸ h
  have hbounds : ∀ (n : List Nat), (∀ b ∈ n, b < 256) →
      ∀ b ∈ n ++ xorStream (A.ksByte key n) 0 (utf8Bytes content)
        ++ A.tagOf key n (xorStream (A.ksByte key n) 0 (utf8Bytes content)),
        b < 256 := by
    intro n hnb b hb
    rcases List.mem_append.mp hb with hc | hc
    · rcases List.mem_append.mp hc with hd | hd
      · exact hnb b hd
      · exact xorStream_lt _ (fun i => hks key n i) 0 _ hptb b hd
    · exact (htag key n _).2 b hc
  have hlists := b64encode_injective _ _ (hbounds n1 hb1) (hbounds n2 hb2) h3
  have ht1 : (n1 ++ xorStream (A.ksByte key n1) 0 (utf8Bytes content)
      ++ A.tagOf key n1 (xorStream (A.ksByte key n1) 0 (utf8Bytes content))).take 12 = n1 := by
    rw [List.append_assoc]
    exact take_append_len _ _ 12 h1
  have ht2 : (n2 ++ xorStream (A.ksByte key n2) 0 (utf8Bytes content)
      ++ A.tagOf key n2 (xorStream (A.ksByte key n2) 0 (utf8Bytes content))).take 12 = n2 := by
    rw [List.append_assoc]
    exact take_append_len _ _ 12 h2
  apply hne
  rw [← ht1, ← ht2, hlists]

theorem testAEAD_wf : testAEAD.WF := by
  constructor
  · intro key nonce i
    norm_num [testAEAD]
  · intro key nonce ct
    constructor
    · simp [testAEAD]
    · intro b hb
      simp [testAEAD] at hb
      omega

/-- Witness for C3 at a concrete key, nonce and content. -/
theorem claim_C3_witness :
    (encrypt_content testAEAD [0, 1, 2, 3, 4, 5, 6, 7, 8, 9, 10, 11] "hi"
        testKeyHex).bind
      (fun blob => decrypt_content testAEAD blob testKeyHex) =
      some (utf8Bytes "hi") :=
  (claim_C3_encrypt_decrypt_roundtrip testAEAD testAEAD_wf testKeyHex
    (List.replicate 32 0) (by decide)
    [0, 1, 2, 3, 4, 5, 6, 7, 8, 9, 10, 11] (by decide) (by decide) "hi").2

/-- Witness for C4 at two concrete distinct nonces. -/
theorem claim_C4_witness :
    encrypt_content testAEAD (List.replicate 12 0) "hi" testKeyHex ≠
      encrypt_content testAEAD (List.replicate 12 1) "hi" testKeyHex :=
  claim_C4_nonce_freshness testAEAD testAEAD_wf testKeyHex
    (List.replicate 32 0) (by decide)
    (List.replicate 12 0) (List.replicate 12 1) (by decide) (by decide)
    (by decide) (by decide) (by decide) "hi"

theorem lookup_unknown (a : String) (tbl : List (String × String))
    (h : ∀ p ∈ tbl, a ≠ p.1) : tbl.lookup a = none := by
  induction tbl with
  | nil => rfl
  | cons p t ih =>
      obtain ⟨k, v⟩ := p
      have hp : a ≠ k := h (k, v) (List.mem_cons_self _ _)
      simp only [List.lookup, beq_eq_false_iff_ne.mpr hp]
      exact ih (fun q hq => h q (List.mem_cons_of_mem _ hq))

theorem pyGet_some_unknown (tbl : List (String × String)) (a d : String)
    (h : tbl.lookup a = none) : pyGet tbl (some a) d = d := by
  simp [pyGet, h]

/-- C2: the category mapping is a total deterministic function with aspect
precedence — a known `work_aspect` maps through the aspect table regardless
of sentiment; otherwise a known sentiment maps through the sentiment table;
otherwise the result is `SUGGESTION`; and every `(work_aspect, sentiment)`
pair maps to exactly one of the four categories. -/
theorem claim_C2_category_mapping :
    (∀ s, categoryOf (some "team") s = "CELEBRATION") ∧
    (∀ s, categoryOf (some "management") s = "COMPLAINT") ∧
    (∀ s, categoryOf (some "workload") s = "SUPPORT_NEEDED") ∧
    (∀ wa, wa ≠ some "team" → wa ≠ some "management" → wa ≠ some "workload" →
      categoryOf wa (some "positive") = "CELEBRATION" ∧
      categoryOf wa (some "negative") = "COMPLAINT" ∧
      categoryOf wa (some "mixed") = "SUGGESTION" ∧
      (∀ s, s ≠ some "positive" → s ≠ some "negative" → s ≠ some "mixed" →
        categoryOf wa s = "SUGGESTION")) ∧
    (∀ wa s, categoryOf wa s = "CELEBRATION" ∨ categoryOf wa s = "COMPLAINT" ∨
      categoryOf wa s = "SUPPORT_NEEDED" ∨ categoryOf wa s = "SUGGESTION") := by
  have p1 : ∀ s, categoryOf (some "team") s = "CELEBRATION" := fun _ => rfl
  have p2 : ∀ s, categoryOf (some "management") s = "COMPLAINT" := fun _ => rfl
  have p3 : ∀ s, categoryOf (some "workload") s = "SUPPORT_NEEDED" :=
    fun _ => rfl
  have haspect : ∀ wa : Option String, wa ≠ some "team" →
      wa ≠ some "management" → wa ≠ some "workload" →
      ∀ d, pyGet aspect_to_category wa d = d := by
    intro wa h1 h2 h3 d
    rcases wa with _ | a
    · rfl
    · refine pyGet_some_unknown _ _ _ (lookup_unknown a _ ?_)
      intro p hp
      simp only [aspect_to_category, List.mem_cons, List.not_mem_nil,
        or_false] at hp
      rcases hp with hp | hp | hp <;> subst hp <;> simp_all
  have p4 : ∀ wa : Option String, wa ≠ some "team" → wa ≠ some "management" →
      wa ≠ some "workload" →
      categoryOf wa (some "positive") = "CELEBRATION" ∧
      categoryOf wa (some "negative") = "COMPLAINT" ∧
      categoryOf wa (some "mixed") = "SUGGESTION" ∧
      (∀ s, s ≠ some "positive" → s ≠ some "negative" → s ≠ some "mixed" →
        categoryOf wa s = "SUGGESTION") := by
    intro wa h1 h2 h3
    refine ⟨haspect wa h1 h2 h3 _, haspect wa h1 h2 h3 _,
      haspect wa h1 h2 h3 _, ?_⟩
    intro s hs1 hs2 hs3
    rw [categoryOf, haspect wa h1 h2 h3]
    rcases s with _ | v
    · rfl
    · refine pyGet_some_unknown _ _ _ (lookup_unknown _ _ ?_)
      intro p hp
      simp only [sentiment_to_category, List.mem_cons, List.not_mem_nil,
        or_false] at hp
      rcases hp with hp | hp | hp <;> subst hp <;> simp_all
  refine ⟨p1, p2, p3, p4, ?_⟩
  intro wa s
  by_cases h1 : wa = some "team"
  · subst h1; exact Or.inl (p1 s)
  by_cases h2 : wa = some "management"
  · subst h2; exact Or.inr (Or.inl (p2 s))
  by_cases h3 : wa = some "workload"
  · subst h3; exact Or.inr (Or.inr (Or.inl (p3 s)))
  obtain ⟨q1, q2, q3, q4⟩ := p4 wa h1 h2 h3
  by_cases hs1 : s = some "positive"
  · subst hs1; exact Or.inl q1
  by_cases hs2 : s = some "negative"
  · subst hs2; exact Or.inr (Or.inl q2)
  by_cases hs3 : s = some "mixed"
  · subst hs3; exact Or.inr (Or.inr (Or.inr q3))
  exact Or.inr (Or.inr (Or.inr (q4 s hs1 hs2 hs3)))

/-- Witness for C2: the spec scenario `work_aspect = management,
sentiment = positive ↦ COMPLAINT` (aspect precedence), plus an unknown
aspect falling back to sentiment. -/
theorem claim_C2_witness :
    categoryOf (some "management") (some "positive") = "COMPLAINT" ∧
    categoryOf none (some "positive") = "CELEBRATION" ∧
    categoryOf (some "other") none = "SUGGESTION" :=
  ⟨claim_C2_category_mapping.2.1 (some "positive"),
   (claim_C2_category_mapping.2.2.2.1 none (by decide) (by decide)
     (by decide)).1,
   (claim_C2_category_mapping.2.2.2.1 (some "other") (by decide) (by decide)
     (by decide)).2.2.2 none (by decide) (by decide) (by decide)⟩

theorem execInsert_committed (c : Conn) (r : WallRow) :
    (execInsert c r).committed = c.committed := rfl

theorem execInsert_keys (c : Conn) (r : WallRow) :
    (execInsert c r).current.keys = c.current.keys := rfl

theorem execInsert_users (c : Conn) (r : WallRow) :
    (execInsert c r).current.users = c.current.users := rfl

theorem importLoop_committed (A : AEAD) (nonceF : Nat → List Nat)
    (key_hex : String) :
    ∀ (i : Nat) (fbs : List Feedback) (c : Conn) (acc : Nat),
      (importLoop A nonceF key_hex i fbs c acc).1.committed = c.committed
  | _, [], _, _ => rfl
  | i, fb :: rest, c, acc => by
      rw [importLoop]
      cases lookupUser c.current.users ADMIN_EMAIL with
      | none => exact importLoop_committed A nonceF key_hex (i + 1) rest c acc
      | some uid =>
          rw [importLoop_committed A nonceF key_hex (i + 1) rest _ (acc + 1)]
          rfl

theorem importLoop_keys (A : AEAD) (nonceF : Nat → List Nat)
    (key_hex : String) :
    ∀ (i : Nat) (fbs : List Feedback) (c : Conn) (acc : Nat),
      (importLoop A nonceF key_hex i fbs c acc).1.current.keys =
        c.current.keys
  | _, [], _, _ => rfl
  | i, fb :: rest, c, acc => by
      rw [importLoop]
      cases lookupUser c.current.users ADMIN_EMAIL with
      | none => exact importLoop_keys A nonceF key_hex (i + 1) rest c acc
      | some uid =>
          rw [importLoop_keys A nonceF key_hex (i + 1) rest _ (acc + 1)]
          rfl

theorem importLoop_users (A : AEAD) (nonceF : Nat → List Nat)
    (key_hex : String) :
    ∀ (i : Nat) (fbs : List Feedback) (c : Conn) (acc : Nat),
      (importLoop A nonceF key_hex i fbs c acc).1.current.users =
        c.current.users
  | _, [], _, _ => rfl
  | i, fb :: rest, c, acc => by
      rw [importLoop]
      cases lookupUser c.current.users ADMIN_EMAIL with
      | none => exact importLoop_users A nonceF key_hex (i + 1) rest c acc
      | some uid =>
          rw [importLoop_users A nonceF key_hex (i + 1) rest _ (acc + 1)]
          rfl

theorem latestKey_cons_ne_none (b : KeyRow) (t : List KeyRow) :
    latestKey (b :: t) ≠ none := by
  rw [latestKey]
  cases latestKey t <;> simp

theorem latestKey_mem_max :
    ∀ (ks : List KeyRow) (k : KeyRow), latestKey ks = some k →
      k ∈ ks ∧ ∀ x ∈ ks, x.created_at ≤ k.created_at
  | [], k, h => by simp [latestKey] at h
  | a :: rest, k, h => by
      rw [latestKey] at h
      cases hr : latestKey rest with
      | none =>
          rw [hr] at h
          simp only [Option.some.injEq] at h
          cases rest with
          | nil =>
              subst h
              exact ⟨List.mem_cons_self _ _, by simp⟩
          | cons b t => exact absurd hr (latestKey_cons_ne_none b t)
      | some m =>
          rw [hr] at h
          simp only [Option.some.injEq] at h
          obtain ⟨hm, hmax⟩ := latestKey_mem_max rest m hr
          by_cases hle : m.created_at ≤ a.created_at
          · rw [if_pos hle] at h
            subst h
            refine ⟨List.mem_cons_self _ _, ?_⟩
            intro x hx
            rcases List.mem_cons.mp hx with hx | hx
            · subst hx; exact le_refl _
            · exact le_trans (hmax x hx) hle
          · rw [if_neg hle] at h
            subst h
            refine ⟨List.mem_cons_of_mem _ hm, ?_⟩
            intro x hx
            rcases List.mem_cons.mp hx with hx | hx
            · subst hx; omega
            · exact hmax x hx

theorem insertOnConflict_present (t : List WallRow) (r : WallRow)
    (h : ∃ x ∈ t, x.id = r.id) : insertOnConflict t r = t := by
  unfold insertOnConflict
  rw [if_pos]
  rw [List.any_eq_true]
  obtain ⟨x, hx, hid⟩ := h
  exact ⟨x, hx, by simp [hid]⟩

theorem execInsert_present (c : Conn) (r : WallRow)
    (h : ∃ x ∈ c.current.wall_posts, x.id = r.id) : execInsert c r = c := by
  unfold execInsert
  rw [insertOnConflict_present _ _ h]

theorem insertOnConflict_absent (t : List WallRow) (r : WallRow)
    (h : ∀ x ∈ t, x.id ≠ r.id) : insertOnConflict t r = t ++ [r] := by
  unfold insertOnConflict
  rw [if_neg]
  intro hc
  rw [List.any_eq_true] at hc
  obtain ⟨x, hx, hbeq⟩ := hc
  exact h x hx (by simpa using hbeq)

theorem importLoop_all_present (A : AEAD) (nonceF : Nat → List Nat)
    (key_hex : String) :
    ∀ (i : Nat) (fbs : List Feedback) (c : Conn) (acc : Nat) (uid : String),
      lookupUser c.current.users ADMIN_EMAIL = some uid →
      (∀ fb ∈ fbs, ∃ x ∈ c.current.wall_posts, x.id = fb.id) →
      importLoop A nonceF key_hex i fbs c acc = (c, acc + fbs.length)
  | _, [], c, acc, uid, hu, hp => by simp [importLoop]
  | i, fb :: rest, c, acc, uid, hu, hp => by
      rw [importLoop]
      simp only [hu]
      have hpres : ∃ x ∈ c.current.wall_posts,
          x.id = (mkRow A nonceF key_hex i uid fb).id := hp fb (by simp)
      rw [execInsert_present c _ hpres]
      rw [importLoop_all_present A nonceF key_hex (i + 1) rest c (acc + 1) uid
        hu (fun g hg => hp g (by simp [hg]))]
      simp only [Prod.mk.injEq, List.length_cons, true_and, eq_self_iff_true]
      omega

theorem importLoop_singleton (A : AEAD) (nonceF : Nat → List Nat)
    (key_hex : String) (i : Nat) (c : Conn) (acc : Nat) (fb : Feedback)
    (uid : String)
    (hu : lookupUser c.current.users ADMIN_EMAIL = some uid) :
    importLoop A nonceF key_hex i [fb] c acc =
      (execInsert c (mkRow A nonceF key_hex i uid fb), acc + 1) := by
  rw [importLoop]
  simp only [hu]
  rfl

/-- C10: the storage-layer run is one transaction: the insert loop never
changes the committed table (no inserted row becomes visible before the
entire record sequence has been processed), the single `conn.commit()`
after the loop publishes everything at once, and a run that never reaches
that commit — including the missing-key early return — leaves the
committed table unchanged. -/
theorem claim_C10_single_transaction (A : AEAD) (nonceF : Nat → List Nat)
    (key_hex : String) (fbs : List Feedback) (c : Conn) :
    (∀ n acc, (importLoop A nonceF key_hex 0 (fbs.take n) c acc).1.committed =
      c.committed) ∧
    (importLoop A nonceF key_hex 0 fbs c 0).1.committed = c.committed ∧
    (latestKey c.current.keys ≠ none →
      (import_feedbacks A nonceF fbs c).1.committed =
        (import_feedbacks A nonceF fbs c).1.current) ∧
    (latestKey c.current.keys = none →
      (import_feedbacks A nonceF fbs c).1.committed = c.committed) := by
  refine ⟨fun n acc => importLoop_committed A nonceF key_hex 0 (fbs.take n) c acc,
    importLoop_committed A nonceF key_hex 0 fbs c 0, ?_, ?_⟩
  · intro h
    unfold import_feedbacks
    cases hk : latestKey c.current.keys with
    | none => exact absurd hk h
    | some k => rfl
  · intro h
    unfold import_feedbacks
    rw [h]

/-- C7: the writer always uses a most-recently-created key of the registry
(maximal `created_at`), never creates or rotates a key (the key registry is
unchanged by the run), and with an empty registry it stops before touching
any record, returning the connection unchanged with nothing encrypted or
inserted (the function writes no files, so snapshot artifacts stay as they
are). -/
theorem claim_C7_key_policy (A : AEAD) (nonceF : Nat → List Nat)
    (fbs : List Feedback) (c : Conn) :
    (latestKey c.current.keys = none →
      import_feedbacks A nonceF fbs c = (c, 0)) ∧
    (∀ k, latestKey c.current.keys = some k →
      k ∈ c.current.keys ∧
      (∀ x ∈ c.current.keys, x.created_at ≤ k.created_at) ∧
      (import_feedbacks A nonceF fbs c).1.current.keys = c.current.keys ∧
      (import_feedbacks A nonceF fbs c).1.committed.keys = c.current.keys) := by
  constructor
  · intro h
    unfold import_feedbacks
    rw [h]
  · intro k hk
    obtain ⟨hmem, hmax⟩ := latestKey_mem_max _ _ hk
    refine ⟨hmem, hmax, ?_, ?_⟩
    · unfold import_feedbacks
      simp only [hk]
      exact importLoop_keys A nonceF k.key_hex 0 fbs c 0
    · unfold import_feedbacks
      simp only [hk]
      exact importLoop_keys A nonceF k.key_hex 0 fbs c 0

/-- C1 (amended): re-running the writer against an already-ingested record
set inserts no new row and treats no conflict as a failure, but the code
keeps only the single `imported` counter, incremented for every record
whose statement executes — conflict or not: a full re-run reports
`imported = N` for N records, and no skipped count exists. -/
theorem claim_C1_rerun_counter (A : AEAD) (nonceF : Nat → List Nat)
    (fbs : List Feedback) (c : Conn) (k : KeyRow) (uid : String)
    (hk : latestKey c.current.keys = some k)
    (hu : lookupUser c.current.users ADMIN_EMAIL = some uid)
    (hp : ∀ fb ∈ fbs, ∃ x ∈ c.current.wall_posts, x.id = fb.id) :
    (import_feedbacks A nonceF fbs c).1.current.wall_posts =
      c.current.wall_posts ∧
    (import_feedbacks A nonceF fbs c).1.committed.wall_posts =
      c.current.wall_posts ∧
    (import_feedbacks A nonceF fbs c).2 = fbs.length := by
  unfold import_feedbacks
  simp only [hk]
  rw [importLoop_all_present A nonceF k.key_hex 0 fbs c 0 uid hu hp]
  exact ⟨rfl, rfl, by simp⟩

/-- C1 counterexample: on a one-record snapshot the first run inserts one
row and reports `imported = 1`; the second run inserts nothing — the
committed table is unchanged — yet again reports `imported = 1`, not
`inserted = 0, skipped = 1` as the claim states: the conflicting record is
counted in the same counter as an insert, and no skipped count exists. -/
theorem claim_C1_counterexample :
    runA1.2 = 1 ∧ runA1.1.committed.wall_posts.length = 1 ∧
    runA2.1.committed.wall_posts = runA1.1.committed.wall_posts ∧
    runA2.2 = 1 ∧ ¬(runA2.2 = 0) := by decide

/-- Witness for C1 (amended) at a table already holding the record id. -/
theorem claim_C1_witness :
    (import_feedbacks testAEAD nonce0 [fbA] connB).1.current.wall_posts =
      connB.current.wall_posts ∧
    (import_feedbacks testAEAD nonce0 [fbA] connB).1.committed.wall_posts =
      connB.current.wall_posts ∧
    (import_feedbacks testAEAD nonce0 [fbA] connB).2 = 1 :=
  claim_C1_rerun_counter testAEAD nonce0 [fbA] connB
    { key_hex := testKeyHex, created_at := 1 } "u1" rfl rfl (by decide)

/-- Witness for C7: the empty-registry early return and the key policy on a
populated registry. -/
theorem claim_C7_witness :
    import_feedbacks testAEAD nonce0 [fbA] connEmpty = (connEmpty, 0) ∧
    (({ key_hex := testKeyHex, created_at := 1 } : KeyRow) ∈
        connA.current.keys ∧
      (∀ x ∈ connA.current.keys, x.created_at ≤
        ({ key_hex := testKeyHex, created_at := 1 } : KeyRow).created_at) ∧
      (import_feedbacks testAEAD nonce0 [fbA] connA).1.current.keys =
        connA.current.keys ∧
      (import_feedbacks testAEAD nonce0 [fbA] connA).1.committed.keys =
        connA.current.keys) :=
  ⟨(claim_C7_key_policy testAEAD nonce0 [fbA] connEmpty).1 rfl,
   (claim_C7_key_policy testAEAD nonce0 [fbA] connA).2
     { key_hex := testKeyHex, created_at := 1 } rfl⟩

/-- Witness for C10 at a concrete connection with a registered key. -/
theorem claim_C10_witness :
    (importLoop testAEAD nonce0 testKeyHex 0 [fbA] connA 0).1.committed =
      connA.committed ∧
    (import_feedbacks testAEAD nonce0 [fbA] connA).1.committed =
      (import_feedbacks testAEAD nonce0 [fbA] connA).1.current :=
  ⟨(claim_C10_single_transaction testAEAD nonce0 testKeyHex [fbA] connA).2.1,
   (claim_C10_single_transaction testAEAD nonce0 testKeyHex [fbA] connA).2.2.1
     (by decide)⟩

/-- C8 (amended): under the direct-storage transport strategy the inserted
row copies the legacy record id verbatim and stores an encrypted blob that
decrypts, under the same key, to the UTF-8 bytes of the summary followed by
the rendered tag line; the API transport strategy (see the counterexample)
instead sends only the bare summary and no id. -/
theorem claim_C8_storage_strategy (A : AEAD) (hA : A.WF)
    (nonceF : Nat → List Nat) (hnl : ∀ i, (nonceF i).length = 12)
    (hnb : ∀ i, ∀ b ∈ nonceF i, b < 256)
    (fb : Feedback) (c : Conn) (k : KeyRow) (key : List Nat) (uid : String)
    (hk : latestKey c.current.keys = some k)
    (hkey : bytesFromHex k.key_hex.toList = some key)
    (hu : lookupUser c.current.users ADMIN_EMAIL = some uid)
    (habsent : ∀ x ∈ c.current.wall_posts, x.id ≠ fb.id) :
    ∃ row blob,
      (import_feedbacks A nonceF [fb] c).1.committed.wall_posts =
        c.current.wall_posts ++ [row] ∧
      row.id = fb.id ∧
      row.enc_content = some blob ∧
      decrypt_content A blob k.key_hex =
        some (utf8Bytes (fb.summary ++ "\n\nТеги: " ++ joinComma fb.tags)) := by
  have hrt := decrypt_encrypt_core A hA k.key_hex key hkey (nonceF 0) (hnl 0)
    (hnb 0) (reconstructContent fb)
  obtain ⟨⟨ct, tg, hctl, htgl, henc⟩, hbind⟩ := hrt
  rw [henc] at hbind
  simp only [Option.some_bind] at hbind
  refine ⟨mkRow A nonceF k.key_hex 0 uid fb, b64encode (nonceF 0 ++ ct ++ tg),
    ?_, rfl, henc, hbind⟩
  unfold import_feedbacks
  simp only [hk, importLoop_singleton A nonceF k.key_hex 0 c 0 fb uid hu]
  show insertOnConflict c.current.wall_posts (mkRow A nonceF k.key_hex 0 uid fb) =
    c.current.wall_posts ++ [mkRow A nonceF k.key_hex 0 uid fb]
  exact insertOnConflict_absent _ _ (fun x hx => habsent x hx)

/-- C8 counterexample: under the API transport strategy the request body
for a record with tags carries only the bare summary — not the summary
followed by the rendered tag line — and no id field at all, so neither the
content-reconstruction half nor the id-preservation half of the claim holds
on that path. -/
theorem claim_C8_counterexample :
    (wall_post_api_payload fbA).lookup "content" = some "s" ∧
    reconstructContent fbA = "s\n\nТеги: a" ∧
    ("s" : String) ≠ "s\n\nТеги: a" ∧
    (wall_post_api_payload fbA).lookup "id" = none := by
  refine ⟨rfl, rfl, ?_, rfl⟩
  decide

/-- Witness for C8 (amended) at a concrete record and connection. -/
theorem claim_C8_witness :
    ∃ row blob,
      (import_feedbacks testAEAD nonce0 [fbA] connA).1.committed.wall_posts =
        connA.current.wall_posts ++ [row] ∧
      row.id = fbA.id ∧
      row.enc_content = some blob ∧
      decrypt_content testAEAD blob testKeyHex =
        some (utf8Bytes (fbA.summary ++ "\n\nТеги: " ++ joinComma fbA.tags)) :=
  claim_C8_storage_strategy testAEAD testAEAD_wf nonce0
    (fun i => by simp [nonce0]) (fun i b hb => by simp [nonce0] at hb; omega)
    fbA connA { key_hex := testKeyHex, created_at := 1 }
    (List.replicate 32 0) "u1" rfl (by decide) rfl (by simp [connA, dbA])

theorem firstJsonHit_sound (fetch : String → HttpResponse) :
    ∀ (eps : List String) (v : Json), firstJsonHit fetch eps = some v →
      ∃ ep ∈ eps, (fetch ep).status = 200 ∧ (fetch ep).asJson = some v
  | [], v, h => by simp [firstJsonHit] at h
  | ep :: rest, v, h => by
      rw [firstJsonHit] at h
      by_cases hs : (fetch ep).status = 200
      · rw [if_pos hs] at h
        cases hj : (fetch ep).asJson with
        | none =>
            rw [hj] at h
            obtain ⟨e, he, hrest⟩ := firstJsonHit_sound fetch rest v h
            exact ⟨e, List.mem_cons_of_mem _ he, hrest⟩
        | some d =>
            rw [hj] at h
            simp only [Option.some.injEq] at h
            subst h
            exact ⟨ep, List.mem_cons_self _ _, hs, hj⟩
      · rw [if_neg hs] at h
        obtain ⟨e, he, hrest⟩ := firstJsonHit_sound fetch rest v h
        exact ⟨e, List.mem_cons_of_mem _ he, hrest⟩

theorem firstJsonHit_skip (fetch : String → HttpResponse) (ep : String)
    (rest : List String)
    (h : ¬((fetch ep).status = 200 ∧ (fetch ep).asJson ≠ none)) :
    firstJsonHit fetch (ep :: rest) = firstJsonHit fetch rest := by
  rw [firstJsonHit]
  by_cases hs : (fetch ep).status = 200
  · rw [if_pos hs]
    cases hj : (fetch ep).asJson with
    | none => rfl
    | some d => exact absurd ⟨hs, by simp [hj]⟩ h
  · rw [if_neg hs]

theorem firstJsonHit_all_miss (fetch : String → HttpResponse) :
    ∀ eps : List String,
      (∀ e ∈ eps, ¬((fetch e).status = 200 ∧ (fetch e).asJson ≠ none)) →
      firstJsonHit fetch eps = none
  | [], _ => rfl
  | ep :: rest, h => by
      rw [firstJsonHit_skip fetch ep rest (h ep (List.mem_cons_self _ _))]
      exact firstJsonHit_all_miss fetch rest
        (fun e he => h e (List.mem_cons_of_mem _ he))

theorem firstJsonHit_first (fetch : String → HttpResponse) :
    ∀ (eps : List String) (v : Json), firstJsonHit fetch eps = some v →
      ∃ l1 ep l2, eps = l1 ++ ep :: l2 ∧
        (∀ e ∈ l1, ¬((fetch e).status = 200 ∧ (fetch e).asJson ≠ none)) ∧
        (fetch ep).status = 200 ∧ (fetch ep).asJson = some v
  | [], v, h => by simp [firstJsonHit] at h
  | ep :: rest, v, h => by
      rw [firstJsonHit] at h
      by_cases hs : (fetch ep).status = 200
      · rw [if_pos hs] at h
        cases hj : (fetch ep).asJson with
        | none =>
            rw [hj] at h
            obtain ⟨l1, e, l2, heq, hmiss, hok⟩ :=
              firstJsonHit_first fetch rest v h
            refine ⟨ep :: l1, e, l2, by rw [heq, List.cons_append], ?_, hok⟩
            intro x hx
            rcases List.mem_cons.mp hx with hx | hx
            · subst hx
              exact fun hcon => hcon.2 hj
            · exact hmiss x hx
        | some d =>
            rw [hj] at h
            simp only [Option.some.injEq] at h
            subst h
            exact ⟨[], ep, rest, rfl, by simp, hs, hj⟩
      · rw [if_neg hs] at h
        obtain ⟨l1, e, l2, heq, hmiss, hok⟩ :=
          firstJsonHit_first fetch rest v h
        refine ⟨ep :: l1, e, l2, by rw [heq, List.cons_append], ?_, hok⟩
        intro x hx
        rcases List.mem_cons.mp hx with hx | hx
        · subst hx
          exact fun hcon => hs hcon.1
        · exact hmiss x hx

theorem tryLogins_fail (respond : LoginAttempt → HttpResponse) :
    ∀ cands : List LoginAttempt,
      (∀ a ∈ cands, ¬((respond a).status = 200 ∧ (respond a).asJson ≠ none)) →
      (tryLogins respond cands).success = none ∧
      (tryLogins respond cands).requests = cands ∧
      (tryLogins respond cands).writes = []
  | [], _ => ⟨rfl, rfl, rfl⟩
  | a :: rest, h => by
      have hrest := tryLogins_fail respond rest
        (fun x hx => h x (List.mem_cons_of_mem _ hx))
      have ha := h a (List.mem_cons_self _ _)
      rw [tryLogins]
      by_cases hs : (respond a).status = 200
      · rw [if_pos hs]
        cases hj : (respond a).asJson with
        | none => simp [hrest.1, hrest.2.1, hrest.2.2]
        | some d => exact absurd ⟨hs, by simp [hj]⟩ ha
      · rw [if_neg hs]
        simp [hrest.1, hrest.2.1, hrest.2.2]

theorem tryLogins_success (respond : LoginAttempt → HttpResponse) :
    ∀ (cands : List LoginAttempt) (a : LoginAttempt) (d : Json),
      (tryLogins respond cands).success = some (a, d) →
      a ∈ cands ∧ (respond a).status = 200 ∧ (respond a).asJson = some d
  | [], a, d, h => by simp [tryLogins] at h
  | b :: rest, a, d, h => by
      rw [tryLogins] at h
      by_cases hs : (respond b).status = 200
      · rw [if_pos hs] at h
        cases hj : (respond b).asJson with
        | none =>
            rw [hj] at h
            obtain ⟨hm, hr⟩ := tryLogins_success respond rest a d h
            exact ⟨List.mem_cons_of_mem _ hm, hr⟩
        | some e =>
            rw [hj] at h
            simp only [Option.some.injEq, Prod.mk.injEq] at h
            obtain ⟨h1, h2⟩ := h
            subst h1; subst h2
            exact ⟨List.mem_cons_self _ _, hs, hj⟩
      · rw [if_neg hs] at h
        obtain ⟨hm, hr⟩ := tryLogins_success respond rest a d h
        exact ⟨List.mem_cons_of_mem _ hm, hr⟩

theorem tryLogins_success_first (respond : LoginAttempt → HttpResponse) :
    ∀ (cands : List LoginAttempt) (a : LoginAttempt) (d : Json),
      (tryLogins respond cands).success = some (a, d) →
      ∃ l1 l2, cands = l1 ++ a :: l2 ∧
        (∀ x ∈ l1, ¬((respond x).status = 200 ∧ (respond x).asJson ≠ none)) ∧
        (tryLogins respond cands).requests = l1 ++ [a] ∧
        (respond a).status = 200 ∧ (respond a).asJson = some d
  | [], a, d, h => by simp [tryLogins] at h
  | b :: rest, a, d, h => by
      rw [tryLogins] at h
      by_cases hs : (respond b).status = 200
      · rw [if_pos hs] at h
        cases hj : (respond b).asJson with
        | some e =>
            rw [hj] at h
            simp only [Option.some.injEq, Prod.mk.injEq] at h
            obtain ⟨h1, h2⟩ := h
            subst h1; subst h2
            refine ⟨[], rest, rfl, by simp, ?_, hs, hj⟩
            rw [tryLogins, if_pos hs, hj]
            rfl
        | none =>
            rw [hj] at h
            obtain ⟨l1, l2, heq, hmiss, hreq, hok⟩ :=
              tryLogins_success_first respond rest a d h
            refine ⟨b :: l1, l2, by rw [heq, List.cons_append], ?_, ?_, hok⟩
            · intro x hx
              rcases List.mem_cons.mp hx with hx | hx
              · subst hx
                exact fun hcon => hcon.2 hj
              · exact hmiss x hx
            · rw [tryLogins, if_pos hs, hj]
              show b :: (tryLogins respond rest).requests = (b :: l1) ++ [a]
              rw [hreq, List.cons_append]
      · rw [if_neg hs] at h
        obtain ⟨l1, l2, heq, hmiss, hreq, hok⟩ :=
          tryLogins_success_first respond rest a d h
        refine ⟨b :: l1, l2, by rw [heq, List.cons_append], ?_, ?_, hok⟩
        · intro x hx
          rcases List.mem_cons.mp hx with hx | hx
          · subst hx
            exact fun hcon => hs hcon.1
          · exact hmiss x hx
        · rw [tryLogins, if_neg hs]
          show b :: (tryLogins respond rest).requests = (b :: l1) ++ [a]
          rw [hreq, List.cons_append]

theorem tryLogins_writes (respond : LoginAttempt → HttpResponse) :
    ∀ cands : List LoginAttempt,
      ((tryLogins respond cands).success = none →
        (tryLogins respond cands).writes = []) ∧
      (∀ a d, (tryLogins respond cands).success = some (a, d) →
        (tryLogins respond cands).writes =
          [("teampulse_login_success.json", loginSuccessDoc a d)])
  | [] => ⟨fun _ => rfl, fun a d h => by simp [tryLogins] at h⟩
  | b :: rest => by
      have ih := tryLogins_writes respond rest
      rw [tryLogins]
      by_cases hs : (respond b).status = 200
      · rw [if_pos hs]
        cases hj : (respond b).asJson with
        | none => exact ⟨fun h => ih.1 h, fun a d h => ih.2 a d h⟩
        | some e =>
            refine ⟨fun h => by simp at h, fun a d h => ?_⟩
            simp only [Option.some.injEq, Prod.mk.injEq] at h
            obtain ⟨h1, h2⟩ := h
            subst h1; subst h2
            rfl
      · rw [if_neg hs]
        exact ⟨fun h => ih.1 h, fun a d h => ih.2 a d h⟩

/-- C5 (amended): only the first response that is HTTP 200 and parses as
JSON is accepted by the monthly prober — every candidate before the
accepted one missed, an HTML 200 (no parse) is skipped exactly like any
other miss, and when every candidate misses the result is `none`; the wall
harvester likewise takes a parsed payload only from a 200 candidate with a
JSON content type — but when every candidate misses, it records the raw
HTML body of the wall response under an `html` key in the harvested output,
so the original claim's "nothing of the HTML body is recorded" part fails
(see the counterexample). -/
theorem claim_C5_html_handling (fetch : String → HttpResponse)
    (eps : List String) (login wall api : HttpResponse) :
    (∀ v, firstJsonHit fetch eps = some v →
      ∃ l1 ep l2, eps = l1 ++ ep :: l2 ∧
        (∀ e ∈ l1, ¬((fetch e).status = 200 ∧ (fetch e).asJson ≠ none)) ∧
        (fetch ep).status = 200 ∧ (fetch ep).asJson = some v) ∧
    (∀ (ep : String) (rest : List String),
      ¬((fetch ep).status = 200 ∧ (fetch ep).asJson ≠ none) →
      firstJsonHit fetch (ep :: rest) = firstJsonHit fetch rest) ∧
    ((∀ e ∈ eps, ¬((fetch e).status = 200 ∧ (fetch e).asJson ≠ none)) →
      firstJsonHit fetch eps = none) ∧
    (login.status = 200 → wall.status = 200 → jsonCT wall = true →
      extract_wall_data login wall api = wall.asJson) ∧
    (login.status = 200 → wall.status = 200 → jsonCT wall = false →
      api.status = 200 → jsonCT api = true →
      extract_wall_data login wall api = api.asJson) ∧
    (login.status = 200 → wall.status = 200 → jsonCT wall = false →
      ¬(api.status = 200 ∧ jsonCT api = true) →
      extract_wall_data login wall api =
        some (Json.obj [("posts", Json.arr []),
          ("html", Json.str wall.text)])) := by
  refine ⟨fun v h => firstJsonHit_first fetch eps v h,
    fun ep rest h => firstJsonHit_skip fetch ep rest h,
    fun h => firstJsonHit_all_miss fetch eps h, ?_, ?_, ?_⟩
  · intro h1 h2 h3
    unfold extract_wall_data
    rw [if_neg (by omega), if_neg (by omega), if_pos h3]
  · intro h1 h2 h3 h4 h5
    unfold extract_wall_data
    rw [if_neg (by omega), if_neg (by omega), if_neg (by simp [h3]),
      if_pos ⟨h4, h5⟩]
  · intro h1 h2 h3 h4
    unfold extract_wall_data
    rw [if_neg (by omega), if_neg (by omega), if_neg (by simp [h3]),
      if_neg h4]

/-- C5 counterexample: with both wall candidates answering an HTML 200, the
value `extract_wall_data` saves to `wall_data.json` embeds the raw HTML
body under the `html` key — an HTML 200 is not treated identically to a
miss, and the HTML body is recorded in the harvested output. -/
theorem claim_C5_counterexample :
    respWallHtml.status = 200 ∧ respWallHtml.asJson = none ∧
    extract_wall_data respLoginOk respWallHtml respWallHtml =
      some (Json.obj [("posts", Json.arr []),
        ("html", Json.str "<html>app shell</html>")]) :=
  ⟨rfl, rfl, rfl⟩

/-- Witness for C5 (amended) at concrete responses: first-acceptance past
an HTML 200, the skip equation, the all-miss case, the two accepting
branches of the wall harvester, and its all-miss fallback. -/
theorem claim_C5_witness :
    (∃ l1 ep l2, ["/feedback/wall", "/api/feedback/wall"] = l1 ++ ep :: l2 ∧
      (∀ e ∈ l1, ¬((fetchMix e).status = 200 ∧ (fetchMix e).asJson ≠ none)) ∧
      (fetchMix ep).status = 200 ∧
      (fetchMix ep).asJson = some (Json.obj [])) ∧
    firstJsonHit fetchHtml ["/feedback/wall", "/api/feedback/wall"] =
      firstJsonHit fetchHtml ["/api/feedback/wall"] ∧
    firstJsonHit fetchHtml ["/feedback/wall", "/api/feedback/wall"] = none ∧
    extract_wall_data respLoginOk respLoginOk respWallHtml =
      respLoginOk.asJson ∧
    extract_wall_data respLoginOk respWallHtml respLoginOk =
      respLoginOk.asJson ∧
    extract_wall_data respLoginOk respWallHtml respWallHtml =
      some (Json.obj [("posts", Json.arr []),
        ("html", Json.str respWallHtml.text)]) :=
  ⟨(claim_C5_html_handling fetchMix ["/feedback/wall", "/api/feedback/wall"]
      respLoginOk respLoginOk respWallHtml).1 (Json.obj []) rfl,
   (claim_C5_html_handling fetchHtml ["/feedback/wall", "/api/feedback/wall"]
      respLoginOk respLoginOk respWallHtml).2.1 "/feedback/wall"
      ["/api/feedback/wall"] (fun hc => hc.2 rfl),
   (claim_C5_html_handling fetchHtml ["/feedback/wall", "/api/feedback/wall"]
      respLoginOk respLoginOk respWallHtml).2.2.1 (fun e he hc => hc.2 rfl),
   (claim_C5_html_handling fetchOk ["/api/metrics"] respLoginOk respLoginOk
      respWallHtml).2.2.2.1 rfl rfl rfl,
   (claim_C5_html_handling fetchOk ["/api/metrics"] respLoginOk respWallHtml
      respLoginOk).2.2.2.2.1 rfl rfl rfl rfl rfl,
   (claim_C5_html_handling fetchOk ["/api/metrics"] respLoginOk respWallHtml
      respWallHtml).2.2.2.2.2 rfl rfl rfl (by decide)⟩

/-- C6 (amended): authentication negotiation iterates the fixed ordered
candidate list, issues exactly one request per candidate with no automatic
retry, and stops at the first response with status exactly 200 and a
parseable body — on success the accepted candidate follows a prefix of
candidates that all failed, and the issued requests are exactly that prefix
plus the accepted candidate, so nothing after it is requested; a 2xx other
than 200 is treated as a failure (see the counterexample); when no
candidate yields a 200-with-JSON response, it returns failure after issuing
one request per candidate in order. -/
theorem claim_C6_negotiation (respond : LoginAttempt → HttpResponse) :
    ((∀ a ∈ login_attempts,
        ¬((respond a).status = 200 ∧ (respond a).asJson ≠ none)) →
      (try_all_login_methods respond).success = none ∧
      (try_all_login_methods respond).requests = login_attempts) ∧
    (∀ a d, (try_all_login_methods respond).success = some (a, d) →
      a ∈ login_attempts ∧ (respond a).status = 200 ∧
      (respond a).asJson = some d ∧
      ∃ l1 l2, login_attempts = l1 ++ a :: l2 ∧
        (∀ x ∈ l1, ¬((respond x).status = 200 ∧ (respond x).asJson ≠ none)) ∧
        (try_all_login_methods respond).requests = l1 ++ [a]) := by
  constructor
  · intro h
    have hf := tryLogins_fail respond login_attempts h
    exact ⟨hf.1, hf.2.1⟩
  · intro a d h
    obtain ⟨l1, l2, heq, hmiss, hreq, h200, hjson⟩ :=
      tryLogins_success_first respond login_attempts a d h
    refine ⟨?_, h200, hjson, l1, l2, heq, hmiss, hreq⟩
    rw [heq]
    exact List.mem_append_right _ (List.mem_cons_self _ _)

/-- C6 counterexample: with every candidate answering 201 — an HTTP success
(2xx) — with a parseable JSON body, the negotiation does not stop at the
first such response: it issues all ten requests and returns failure,
because the code accepts exactly status 200, not any 2xx. -/
theorem claim_C6_counterexample :
    (respond201 { url := "", payload := [] }).status = 201 ∧
    200 ≤ 201 ∧ 201 < 300 ∧
    (respond201 { url := "", payload := [] }).asJson ≠ none ∧
    (try_all_login_methods respond201).success = none ∧
    (try_all_login_methods respond201).requests = login_attempts ∧
    login_attempts.length = 10 := by
  refine ⟨rfl, by omega, by omega, ?_, rfl, rfl, rfl⟩
  simp [respond201]

/-- Witness for C6 (amended): the exhaustion branch at an all-failing
environment, and the first-success branch at an environment whose first
candidate fails and whose second succeeds — the issued requests stop at
the second candidate. -/
theorem claim_C6_witness :
    ((try_all_login_methods respond201).success = none ∧
      (try_all_login_methods respond201).requests = login_attempts) ∧
    (attemptTwo ∈ login_attempts ∧
      (respondSecond attemptTwo).status = 200 ∧
      (respondSecond attemptTwo).asJson = some (Json.obj []) ∧
      ∃ l1 l2, login_attempts = l1 ++ attemptTwo :: l2 ∧
        (∀ x ∈ l1, ¬((respondSecond x).status = 200 ∧
          (respondSecond x).asJson ≠ none)) ∧
        (try_all_login_methods respondSecond).requests = l1 ++ [attemptTwo]) :=
  ⟨(claim_C6_negotiation respond201).1
      (fun a ha => by simp [respond201]),
   (claim_C6_negotiation respondSecond).2 attemptTwo (Json.obj []) rfl⟩

/-- C9 (amended): on total failure the negotiation writes nothing durable;
on success it writes exactly one file, `teampulse_login_success.json`,
whose `payload` field holds the successful candidate's full request payload
— including the secret — verbatim, so the original claim that every
written file is free of the secret fails (see the counterexample). -/
theorem claim_C9_credential_write (respond : LoginAttempt → HttpResponse) :
    ((try_all_login_methods respond).success = none →
      (try_all_login_methods respond).writes = []) ∧
    (∀ a d, (try_all_login_methods respond).success = some (a, d) →
      (try_all_login_methods respond).writes =
        [("teampulse_login_success.json", loginSuccessDoc a d)]) :=
  tryLogins_writes respond login_attempts

/-- C9 counterexample: with the first candidate succeeding, the negotiation
durably writes `teampulse_login_success.json`, and the written document's
`payload` field carries the secret `QwertY24$` verbatim under the
`password` key — a credential is persisted beyond the in-memory session. -/
theorem claim_C9_counterexample :
    (try_all_login_methods respondOk).writes =
      [("teampulse_login_success.json",
        Json.obj [("endpoint", Json.str (BASE ++ "/api/auth/login")),
                  ("payload", Json.obj [("email", Json.str EMAIL),
                                        ("password", Json.str PASSWORD)]),
                  ("response", Json.obj [])])] ∧
    PASSWORD = "QwertY24$" :=
  ⟨rfl, rfl⟩

/-- Witness for C9 (amended): no write on exhaustion, the one success file
on success. -/
theorem claim_C9_witness :
    (try_all_login_methods respond201).writes = [] ∧
    (try_all_login_methods respondOk).writes =
      [("teampulse_login_success.json",
        loginSuccessDoc attemptOne (Json.obj []))] :=
  ⟨(claim_C9_credential_write respond201).1 rfl,
   (claim_C9_credential_write respondOk).2 attemptOne (Json.obj []) rfl⟩

end Mindguard

